import Mathlib

/-!
Shallow embedding of the lazy logical-plan layer of the polars repository
(src/polars/src/lazy/logical_plan/mod.rs), together with theorems settling
the specification claims about it.

Conventions of the embedding:
* Rust machine integers and strings become `Nat`/`Int`/`String`; the payloads
  of the float scalar variants are kept as opaque bit patterns (`Nat`) since
  no function of this module ever reads them.
* Rust functions that can panic (`unwrap`, the `panic!` arm of
  `get_datatype`) are embedded as `Option`-returning functions where `none`
  models the process abort.  Functions whose Rust signature has no error
  channel and cannot panic are embedded as total functions.
* `FnvHashSet` is an external dependency whose iteration order is
  unspecified.  Its contents are modelled exactly (insertion-ordered list
  with set semantics); the order in which `into_iter` yields the elements is
  abstracted as a parameter `iter` constrained only to enumerate the set
  (`admissibleIter`).
* `Schema`/`Field` and their operations (`field_with_name`, `try_merge`) are
  the arrow crate's; the spec gives their contract and the definitions here
  follow it.  `Expr` and `utils::expressions_to_schema` are repository code
  outside the given sources; they are modelled from the spec where marked.
-/

namespace Polars

/-- The arrow type tags used by this module (closed set sufficient for the
scalar variants and schema fields appearing here). -/
inductive DataType
  | Boolean
  | UInt8
  | UInt16
  | UInt32
  | UInt64
  | Int8
  | Int16
  | Int32
  | Int64
  | Float32
  | Float64
  | Utf8
  deriving DecidableEq, Repr

/-- A column descriptor: name, type and nullability (arrow `Field`). -/
structure Field where
  name : String
  dataType : DataType
  nullable : Bool
  deriving DecidableEq, Repr

/-- An arrow `Schema`: an ordered list of fields. -/
abbrev Schema := List Field

/-- Modelled from the spec: the Schema/Field capability (external contract):
`field_with_name(name) -> Result<Field>` — lookup of the first field with
the given name; `none` models the `Err` case. -/
def field_with_name (s : Schema) (n : String) : Option Field :=
  s.find? (fun f => f.name == n)

/-- Modelled from the spec: one merge step of `Schema::try_merge` for a
single incoming field: an exact duplicate (same name, type, nullability) is
skipped, a fresh name is appended, and a same-named but different field is a
conflict (`none`). -/
def mergeStep (acc : Schema) (f : Field) : Option Schema :=
  match field_with_name acc f.name with
  | some g => if g = f then some acc else none
  | none => some (acc ++ [f])

/-- Modelled from the spec: the Schema/Field capability (external contract):
`Schema::try_merge` over two schemas — fails on true name conflicts,
succeeds idempotently on exact duplicates, and preserves left-then-right
order. -/
def try_merge (a : Schema) : Schema → Option Schema
  | [] => some a
  | f :: fs =>
    match mergeStep a f with
    | some acc => try_merge acc fs
    | none => none

/-- `ScalarValue` of the repository: a tagged union of literal values.  The
float payloads are opaque bit patterns; no function here reads them. -/
inductive ScalarValue
  | Null
  | Boolean (b : Bool)
  | Utf8 (s : String)
  | UInt8 (v : Nat)
  | UInt16 (v : Nat)
  | UInt32 (v : Nat)
  | UInt64 (v : Nat)
  | Int8 (v : Int)
  | Int16 (v : Int)
  | Int32 (v : Int)
  | Int64 (v : Int)
  | Float32 (bits : Nat)
  | Float64 (bits : Nat)
  deriving DecidableEq, Repr

/-- `ScalarValue::get_datatype`: the type tag of the populated variant.
The Rust catch-all arm `_ => panic!(...)` (reached only by `Null`) is
embedded as `none`. -/
def ScalarValue.get_datatype : ScalarValue → Option DataType
  | .Boolean _ => some .Boolean
  | .UInt8 _ => some .UInt8
  | .UInt16 _ => some .UInt16
  | .UInt32 _ => some .UInt32
  | .UInt64 _ => some .UInt64
  | .Int8 _ => some .Int8
  | .Int16 _ => some .Int16
  | .Int32 _ => some .Int32
  | .Int64 _ => some .Int64
  | .Float32 _ => some .Float32
  | .Float64 _ => some .Float64
  | .Utf8 _ => some .Utf8
  | .Null => none

/-- The repository's `Operator` enumeration (plan payload; pure value). -/
inductive Operator
  | Eq
  | NotEq
  | Lt
  | LtEq
  | Gt
  | GtEq
  | Plus
  | Minus
  | Multiply
  | Divide
  | Modulus
  | And
  | Or
  | Not
  | Like
  | NotLike
  deriving DecidableEq, Repr

/-- The repository's `JoinType` enumeration. -/
inductive JoinType
  | Left
  | Inner
  | Outer
  deriving DecidableEq, Repr

/-- Modelled from the spec: the expression capability (`Expr`, repository
code outside the given sources).  Only the shape needed by the plan layer:
column references and aliasing; the contract used below is
`resulting_field`. -/
inductive Expr
  | column (name : String)
  | alias (e : Expr) (name : String)
  | literal (v : ScalarValue)
  deriving DecidableEq, Repr

/-- Modelled from the spec: the expression capability (external contract):
`resulting_field(schema) -> Result<Field>` — the (name, type, nullability)
an expression would produce against an input schema.  A column reference
resolves in the schema, an alias renames the underlying field, and a
literal needs its scalar type tag. -/
def Expr.resulting_field : Expr → Schema → Option Field
  | .column n, s => field_with_name s n
  | .alias e n, s => (Expr.resulting_field e s).map (fun f => { f with name := n })
  | .literal v, _ => (v.get_datatype).map (fun dt => { name := "literal", dataType := dt, nullable := true })

/-- An in-memory table behind a `DataFrameScan` node.  The shared-handle
aliasing of the Rust `Rc<RefCell<DataFrame>>` is irrelevant to schema
derivation and rendering; only the schema and (never-read) rows matter. -/
structure DataFrame where
  schema : Schema
  rows : List (List ScalarValue)
  deriving DecidableEq

/-- The repository's `LogicalPlan`: a closed recursive tree of 7 node
kinds.  The CSV delimiter byte becomes `Option Nat`. -/
inductive LogicalPlan
  | Selection (input : LogicalPlan) (predicate : Expr)
  | CsvScan (path : String) (schema : Schema) (has_header : Bool) (delimiter : Option Nat)
  | DataFrameScan (df : DataFrame) (schema : Schema)
  | Projection (expr : List Expr) (input : LogicalPlan) (schema : Schema)
  | Sort (input : LogicalPlan) (column : String) (reverse : Bool)
  | Aggregate (input : LogicalPlan) (keys : List String) (aggs : List Expr) (schema : Schema)
  | Join (input_left : LogicalPlan) (input_right : LogicalPlan) (schema : Schema)
      (how : JoinType) (left_on : String) (right_on : String)
  deriving DecidableEq

/-- `LogicalPlan::schema`: nodes carrying a schema snapshot return it;
Selection and Sort delegate to their input. -/
def LogicalPlan.schema : LogicalPlan → Schema
  | .Selection input _ => input.schema
  | .CsvScan _ s _ _ => s
  | .DataFrameScan _ s => s
  | .Projection _ _ s => s
  | .Sort input _ _ => input.schema
  | .Aggregate _ _ _ s => s
  | .Join _ _ s _ _ _ => s

/-- Modelled from the spec: `utils::expressions_to_schema` (repository code
outside the given sources): derive each expression's output field against
the input schema and assemble a schema in expression-list order; fails when
an expression does not resolve or two expressions produce the same output
name. -/
def expressions_to_schema (exprs : List Expr) (s : Schema) : Option Schema :=
  match exprs.mapM (fun e => Expr.resulting_field e s) with
  | none => none
  | some fields => if (fields.map Field.name).Nodup then some fields else none

namespace LogicalPlanBuilder

/-- `LogicalPlanBuilder::project`.  The Rust signature returns `Self` with
no error channel; any failure inside schema derivation aborts the process,
embedded as `none`. -/
def project (p : LogicalPlan) (expr : List Expr) : Option LogicalPlan :=
  (expressions_to_schema expr p.schema).map (fun schema => .Projection expr p schema)

/-- `LogicalPlanBuilder::filter`: wraps the plan in a Selection node.
Total: the Rust code performs no validation and cannot fail. -/
def filter (p : LogicalPlan) (predicate : Expr) : LogicalPlan :=
  .Selection p predicate

/-- `LogicalPlanBuilder::sort`: wraps the plan in a Sort node.  Total: the
Rust code performs no validation and cannot fail. -/
def sort (p : LogicalPlan) (by_column : String) (reverse : Bool) : LogicalPlan :=
  .Sort p by_column reverse

/-- `LogicalPlanBuilder::groupby`.  The Rust code resolves each key with
`field_with_name(name).unwrap()`, derives the aggregate schema, and merges
with `Schema::try_merge(..).unwrap()`; both `unwrap`s panic on failure and
the signature returns `Self` with no error channel, so every failure is the
abort `none`. -/
def groupby (p : LogicalPlan) (keys : List String) (aggs : List Expr) : Option LogicalPlan :=
  match keys.mapM (field_with_name p.schema) with
  | none => none
  | some fields =>
    match expressions_to_schema aggs p.schema with
    | none => none
    | some schema2 =>
      match try_merge fields schema2 with
      | none => none
      | some schema => some (.Aggregate p keys aggs schema)

/-- `LogicalPlanBuilder::from_existing_df`. -/
def from_existing_df (df : DataFrame) : LogicalPlan :=
  .DataFrameScan df df.schema

/-- One `FnvHashSet::insert`: a no-op when the (whole) field is already
present, otherwise the field is added.  The list keeps insertion order;
iteration order is abstracted separately. -/
def hsInsert (s : List Field) (f : Field) : List Field :=
  if f ∈ s then s else s ++ [f]

/-- The renaming applied by `join` to a colliding right field:
`"<name>_right"`, type and nullability unchanged. -/
def renameRight (f : Field) : Field :=
  { f with name := f.name ++ "_right" }

/-- The contents of the `FnvHashSet` built by `LogicalPlanBuilder::join`:
all left fields are inserted, then each right field is inserted renamed to
`"<name>_right"` when the set already contains the identical field, and
unchanged otherwise. -/
def joinFieldList (left : Schema) (right : Schema) : List Field :=
  let s := left.foldl hsInsert []
  right.foldl (fun s f => if f ∈ s then hsInsert s (renameRight f) else hsInsert s f) s

/-- An admissible iteration order of the hash set: `into_iter` yields every
element of the set exactly once, in an order the `fnv`/`hashbrown`
dependencies leave unspecified. -/
def admissibleIter (iter : List Field → List Field) : Prop :=
  ∀ s : List Field, (iter s).Perm s

/-- `LogicalPlanBuilder::join`, parametric in the hash-set iteration order
`iter` (the Rust `set.into_iter().collect()`).  No validation of the key
names is performed; the node is always constructed. -/
def join (iter : List Field → List Field) (p : LogicalPlan) (other : LogicalPlan)
    (how : JoinType) (left_on : String) (right_on : String) : LogicalPlan :=
  .Join p other (iter (joinFieldList p.schema other.schema)) how left_on right_on

end LogicalPlanBuilder

/-- Rust's `Debug` rendering of a string: surrounding quotes (escaping of
special characters inside the name is not modelled; the names appearing in
the theorems below contain none). -/
def debugQuote (s : String) : String :=
  "\"" ++ s ++ "\""

/-- The comma-separated body of Rust's `Debug` rendering of a vector. -/
def debugListBody : List String → String
  | [] => ""
  | [x] => x
  | x :: xs => x ++ (", " ++ debugListBody xs)

/-- Rust's `Debug` rendering of a vector of already-rendered elements:
`[a, b, c]`. -/
def debugList (xs : List String) : String :=
  "[" ++ (debugListBody xs ++ "]")

/-- The `fmt::Debug` implementation for `LogicalPlan`, parametric in the
`Debug` rendering `ed` of the expression layer (repository code outside the
given sources).  Each arm is the format string of the corresponding Rust
`write!`: the `DataFrameScan` arm renders only the first 4 column names and
never touches the table handle. -/
def fmtDebug (ed : Expr → String) : LogicalPlan → String
  | .Selection input predicate =>
      "Filter\n\t" ++ (ed predicate ++ (" " ++ fmtDebug ed input))
  | .CsvScan path _ _ _ =>
      "CSVScan " ++ path
  | .DataFrameScan _ schema =>
      "TABLE: " ++ debugList (((schema.map Field.name).take 4).map debugQuote)
  | .Projection expr input _ =>
      "SELECT " ++ (debugList (expr.map ed) ++ (" \nFROM\n" ++ fmtDebug ed input))
  | .Sort input column _ =>
      "Sort\n\t" ++ (debugQuote column ++ ("\n" ++ fmtDebug ed input))
  | .Aggregate _ keys aggs _ =>
      "Aggregate\n\t" ++ (debugList (aggs.map ed) ++ (" BY " ++ debugList (keys.map debugQuote)))
  | .Join input_left input_right _ _ left_on right_on =>
      "JOIN (" ++ (fmtDebug ed input_left ++ (") WITH (" ++ (fmtDebug ed input_right
        ++ (") ON (left: " ++ (left_on ++ (" right: " ++ (right_on ++ ")")))))))

/-- `a` occurs literally inside `b` (substring at the character level). -/
def occursIn (a b : String) : Prop :=
  ∃ x y : List Char, b.data = x ++ a.data ++ y

/-- The `days` column of the join scenario of the repository's doc examples
and tests (`Series::init("days", [0, 1, 2, 3, 4])`). -/
def fieldDays : Field := { name := "days", dataType := .Int32, nullable := true }

/-- The `temp` column of the join scenario. -/
def fieldTemp : Field := { name := "temp", dataType := .Float64, nullable := true }

/-- The `rain` column of the join scenario. -/
def fieldRain : Field := { name := "rain", dataType := .Float64, nullable := true }

/-- The renamed right-side `days` column produced by the join collision. -/
def fieldDaysRight : Field := { name := "days_right", dataType := .Int32, nullable := true }

/-- Left schema of the join scenario: `{days: Int, temp: Float}`. -/
def leftSchema : Schema := [fieldDays, fieldTemp]

/-- Right schema of the join scenario: `{days: Int, rain: Float}`. -/
def rightSchema : Schema := [fieldDays, fieldRain]

/-- A `DataFrameScan` leaf over an empty table with the given schema. -/
def scanOf (s : Schema) : LogicalPlan :=
  .DataFrameScan { schema := s, rows := [] } s

/-- The `colA` column of the projection-order scenario. -/
def fieldColA : Field := { name := "colA", dataType := .Int32, nullable := true }

/-- The `colB` column of the projection-order scenario. -/
def fieldColB : Field := { name := "colB", dataType := .Float64, nullable := true }

/-- The aliased output column `x` of the projection-order scenario. -/
def fieldX : Field := { name := "x", dataType := .Float64, nullable := true }

/-- Input schema `[colA, colB]` of the projection-order scenario. -/
def abSchema : Schema := [fieldColA, fieldColB]

theorem data_append (s t : String) : (s ++ t).data = s.data ++ t.data :=
  rfl

theorem occursIn_refl (a : String) : occursIn a a :=
  ⟨[], [], by simp⟩

theorem occursIn_append_left {a b : String} (c : String) (h : occursIn a b) :
    occursIn a (b ++ c) := by
  obtain ⟨x, y, hxy⟩ := h
  exact ⟨x, y ++ c.data, by simp [data_append, hxy]⟩

theorem occursIn_append_right {a c : String} (b : String) (h : occursIn a c) :
    occursIn a (b ++ c) := by
  obtain ⟨x, y, hxy⟩ := h
  exact ⟨b.data ++ x, y, by simp [data_append, hxy]⟩

theorem occursIn_trans {a b c : String} (hab : occursIn a b) (hbc : occursIn b c) :
    occursIn a c := by
  obtain ⟨x1, y1, h1⟩ := hab
  obtain ⟨x2, y2, h2⟩ := hbc
  exact ⟨x2 ++ x1, y1 ++ y2, by simp [h2, h1]⟩

theorem occursIn_debugQuote (s : String) : occursIn s (debugQuote s) :=
  ⟨("\"" : String).data, ("\"" : String).data, rfl⟩

theorem occursIn_debugListBody {x : String} : ∀ {xs : List String}, x ∈ xs →
    occursIn x (debugListBody xs)
  | [], h => absurd h (List.not_mem_nil x)
  | [y], h => by
      rcases List.mem_singleton.mp h with rfl
      exact occursIn_refl x
  | y :: z :: t, h => by
      rcases List.mem_cons.mp h with rfl | h2
      · exact occursIn_append_left _ (occursIn_refl x)
      · exact occursIn_append_right _ (occursIn_append_right _ (occursIn_debugListBody h2))

theorem occursIn_debugList {x : String} {xs : List String} (h : x ∈ xs) :
    occursIn x (debugList xs) :=
  occursIn_append_right _ (occursIn_append_left _ (occursIn_debugListBody h))

theorem field_with_name_append_ne (a : Schema) (f : Field) (n : String)
    (hne : f.name ≠ n) : field_with_name (a ++ [f]) n = field_with_name a n := by
  simp only [field_with_name, List.find?_append]
  have hf : List.find? (fun g => g.name == n) [f] = none := by
    have hb : (f.name == n) = false := beq_eq_false_iff_ne.mpr hne
    simp [List.find?, hb]
  rw [hf]
  cases List.find? (fun g => g.name == n) a <;> rfl

theorem expressions_to_schema_nodup {exprs : List Expr} {sch fields : Schema}
    (h : expressions_to_schema exprs sch = some fields) :
    (fields.map Field.name).Nodup := by
  unfold expressions_to_schema at h
  cases hm : exprs.mapM (fun e => Expr.resulting_field e sch) with
  | none => rw [hm] at h; exact absurd h (by simp)
  | some fs =>
      rw [hm] at h
      by_cases hn : (fs.map Field.name).Nodup
      · simp only [hn, if_true, Option.some.injEq] at h
        rwa [← h]
      · simp [hn] at h

theorem try_merge_filter : ∀ (bs : List Field) (acc : Schema),
    (bs.map Field.name).Nodup →
    (∀ f ∈ bs, field_with_name acc f.name = none ∨ field_with_name acc f.name = some f) →
    try_merge acc bs = some (acc ++ bs.filter (fun f => (field_with_name acc f.name).isNone))
  | [], acc, _, _ => by simp [try_merge]
  | f :: fs, acc, hnd, hcond => by
      have hnd2 : (fs.map Field.name).Nodup := by
        simp only [List.map_cons, List.nodup_cons] at hnd
        exact hnd.2
      have hnotin : f.name ∉ fs.map Field.name := by
        simp only [List.map_cons, List.nodup_cons] at hnd
        exact hnd.1
      rcases hcond f (List.mem_cons_self f fs) with hnone | hsome
      · have hstep : mergeStep acc f = some (acc ++ [f]) := by
          simp [mergeStep, hnone]
        have hcond2 : ∀ g ∈ fs, field_with_name (acc ++ [f]) g.name = none ∨
            field_with_name (acc ++ [f]) g.name = some g := by
          intro g hg
          have hne : f.name ≠ g.name := by
            intro he
            exact hnotin (he ▸ List.mem_map_of_mem Field.name hg)
          rw [field_with_name_append_ne acc f g.name hne]
          exact hcond g (List.mem_cons_of_mem f hg)
        have ih := try_merge_filter fs (acc ++ [f]) hnd2 hcond2
        have hfe : fs.filter (fun g => (field_with_name (acc ++ [f]) g.name).isNone) =
            fs.filter (fun g => (field_with_name acc g.name).isNone) := by
          apply List.filter_congr
          intro g hg
          have hne : f.name ≠ g.name := by
            intro he
            exact hnotin (he ▸ List.mem_map_of_mem Field.name hg)
          rw [field_with_name_append_ne acc f g.name hne]
        rw [hfe] at ih
        calc try_merge acc (f :: fs)
            = try_merge (acc ++ [f]) fs := by simp [try_merge, hstep]
          _ = some ((acc ++ [f]) ++ fs.filter (fun g => (field_with_name acc g.name).isNone)) := ih
          _ = some (acc ++ (f :: fs).filter (fun g => (field_with_name acc g.name).isNone)) := by
              simp [List.filter_cons, hnone]
      · have hstep : mergeStep acc f = some acc := by
          simp [mergeStep, hsome]
        have ih := try_merge_filter fs acc hnd2 (fun g hg => hcond g (List.mem_cons_of_mem f hg))
        calc try_merge acc (f :: fs)
            = try_merge acc fs := by simp [try_merge, hstep]
          _ = some (acc ++ fs.filter (fun g => (field_with_name acc g.name).isNone)) := ih
          _ = some (acc ++ (f :: fs).filter (fun g => (field_with_name acc g.name).isNone)) := by
              simp [List.filter_cons, hsome]

/-- C1: the code determines the Join schema of the scenario
left = `{days: Int, temp: Float}`, right = `{days: Int, rain: Float}` only
up to the iteration order of the `FnvHashSet` it collects the fields from:
the set's insertion-order contents are exactly
`[days, temp, days_right, rain]` (the renaming behaves as claimed), but any
admissible hash-set iteration order is a correct embedding of
`set.into_iter().collect()`, and under the admissible order `List.reverse`
the resulting schema is a permutation of — yet not equal to — the claimed
column order.  The claimed left-then-right order is therefore not a
property of the code. -/
theorem join_schema_order_not_determined :
    LogicalPlanBuilder.admissibleIter id ∧
    LogicalPlanBuilder.admissibleIter List.reverse ∧
    LogicalPlanBuilder.joinFieldList leftSchema rightSchema =
      [fieldDays, fieldTemp, fieldDaysRight, fieldRain] ∧
    (LogicalPlanBuilder.join List.reverse (scanOf leftSchema) (scanOf rightSchema)
        .Left "days" "days").schema ≠ [fieldDays, fieldTemp, fieldDaysRight, fieldRain] ∧
    ((LogicalPlanBuilder.join List.reverse (scanOf leftSchema) (scanOf rightSchema)
        .Left "days" "days").schema).Perm [fieldDays, fieldTemp, fieldDaysRight, fieldRain] :=
  ⟨fun s => List.Perm.refl s, fun s => s.reverse_perm, by decide, by decide, by decide⟩

/-- C2: `groupby` has no error channel (its Rust signature returns `Self`)
and panics — embedded as the abort `none` — both for a key name absent from
the input schema and for an aggregate output colliding with a key at a
different type; no `UnknownField`/`SchemaConflict` error value is returned
to the caller. -/
theorem groupby_aborts_instead_of_returning_error :
    LogicalPlanBuilder.groupby (scanOf leftSchema) ["wrong_key"] [] = none ∧
    LogicalPlanBuilder.groupby (scanOf leftSchema) ["days"]
      [.alias (.column "temp") "days"] = none :=
  ⟨by decide, by decide⟩

/-- C3: Selection and Sort delegate `schema()` to their input: for every
plan, predicate, column name and reverse flag, the schema of the wrapped
node equals the schema of the input plan. -/
theorem selection_sort_schema_passthrough (p : LogicalPlan) (pred : Expr)
    (col : String) (rev : Bool) :
    (LogicalPlan.Selection p pred).schema = p.schema ∧
    (LogicalPlan.Sort p col rev).schema = p.schema :=
  ⟨rfl, rfl⟩

/-- C4: when every key resolves and every aggregate-derived field is either
fresh or identical to a key field, `groupby` builds the Aggregate schema as
the key columns first, in key-list order, followed by the aggregate-derived
columns, with an aggregate output identical to a key deduplicated (the key
appears once). -/
theorem groupby_schema_keys_first (p : LogicalPlan) (keys : List String) (aggs : List Expr)
    (kf af : Schema)
    (_hne : keys ≠ [])
    (hk : keys.mapM (field_with_name p.schema) = some kf)
    (ha : expressions_to_schema aggs p.schema = some af)
    (hc : ∀ f ∈ af, field_with_name kf f.name = none ∨ field_with_name kf f.name = some f) :
    LogicalPlanBuilder.groupby p keys aggs = some (.Aggregate p keys aggs
      (kf ++ af.filter (fun f => (field_with_name kf f.name).isNone))) := by
  have hm := try_merge_filter af kf (expressions_to_schema_nodup ha) hc
  unfold LogicalPlanBuilder.groupby
  rw [hk, ha]
  simp [hm]

/-- Witness for C4: grouping `{days: Int, temp: Float}` by key `days` with
aggregates `[temp, days]` satisfies the hypotheses and yields the schema
`[days, temp]` — the key first and appearing once despite the identical
aggregate output. -/
theorem groupby_schema_keys_first_witness :
    (["days"] ≠ ([] : List String)) ∧
    (["days"].mapM (field_with_name (scanOf leftSchema).schema) = some [fieldDays]) ∧
    (expressions_to_schema [Expr.column "temp", Expr.column "days"]
      (scanOf leftSchema).schema = some [fieldTemp, fieldDays]) ∧
    (∀ f ∈ [fieldTemp, fieldDays], field_with_name [fieldDays] f.name = none ∨
      field_with_name [fieldDays] f.name = some f) ∧
    LogicalPlanBuilder.groupby (scanOf leftSchema) ["days"]
        [Expr.column "temp", Expr.column "days"] =
      some (.Aggregate (scanOf leftSchema) ["days"]
        [Expr.column "temp", Expr.column "days"] [fieldDays, fieldTemp]) :=
  ⟨by decide, by decide, by decide, by decide,
    groupby_schema_keys_first (scanOf leftSchema) ["days"]
      [Expr.column "temp", Expr.column "days"] [fieldDays] [fieldTemp, fieldDays]
      (by decide) (by decide) (by decide) (by decide)⟩

/-- C5: when every expression resolves against the input schema and the
derived output names are pairwise distinct, `project` builds the Projection
schema with one field per expression, in expression-list order. -/
theorem project_schema_expression_order (p : LogicalPlan) (exprs : List Expr) (fields : Schema)
    (hr : exprs.mapM (fun e => Expr.resulting_field e p.schema) = some fields)
    (hn : (fields.map Field.name).Nodup) :
    LogicalPlanBuilder.project p exprs = some (.Projection exprs p fields) := by
  unfold LogicalPlanBuilder.project expressions_to_schema
  rw [hr]
  simp [hn]

/-- Witness for C5: over input schema `[colA, colB]`, projecting
`[colB.alias("x"), colA]` yields output schema `[x, colA]` — expression-list
order, not input-column order, with the alias renaming the output. -/
theorem project_schema_expression_order_witness :
    ([Expr.alias (Expr.column "colB") "x", Expr.column "colA"].mapM
        (fun e => Expr.resulting_field e (scanOf abSchema).schema) =
      some [fieldX, fieldColA]) ∧
    (([fieldX, fieldColA].map Field.name).Nodup) ∧
    LogicalPlanBuilder.project (scanOf abSchema)
        [Expr.alias (Expr.column "colB") "x", Expr.column "colA"] =
      some (.Projection [Expr.alias (Expr.column "colB") "x", Expr.column "colA"]
        (scanOf abSchema) [fieldX, fieldColA]) :=
  ⟨by decide, by decide,
    project_schema_expression_order (scanOf abSchema)
      [Expr.alias (Expr.column "colB") "x", Expr.column "colA"] [fieldX, fieldColA]
      (by decide) (by decide)⟩

/-- C6: `join` validates nothing about the key names: for every pair of
plans, every admissible hash-set iteration order, every join type and every
pair of key names (present in the schemas or not), construction succeeds
and yields a Join node carrying exactly those plans and key names. -/
theorem join_constructs_without_key_validation (iter : List Field → List Field)
    (p other : LogicalPlan) (how : JoinType) (left_on right_on : String) :
    ∃ schema, LogicalPlanBuilder.join iter p other how left_on right_on =
      LogicalPlan.Join p other schema how left_on right_on :=
  ⟨_, rfl⟩

/-- C7: `get_datatype` returns the type tag matching the populated variant
for every non-Null scalar, and returns a type tag for no other input: the
panicking catch-all arm (embedded as `none`) is reached exactly by `Null`. -/
theorem get_datatype_matches_variant :
    (∀ v : ScalarValue, ScalarValue.get_datatype v = none ↔ v = .Null) ∧
    (∀ b, ScalarValue.get_datatype (.Boolean b) = some .Boolean) ∧
    (∀ s, ScalarValue.get_datatype (.Utf8 s) = some .Utf8) ∧
    (∀ v, ScalarValue.get_datatype (.UInt8 v) = some .UInt8) ∧
    (∀ v, ScalarValue.get_datatype (.UInt16 v) = some .UInt16) ∧
    (∀ v, ScalarValue.get_datatype (.UInt32 v) = some .UInt32) ∧
    (∀ v, ScalarValue.get_datatype (.UInt64 v) = some .UInt64) ∧
    (∀ v, ScalarValue.get_datatype (.Int8 v) = some .Int8) ∧
    (∀ v, ScalarValue.get_datatype (.Int16 v) = some .Int16) ∧
    (∀ v, ScalarValue.get_datatype (.Int32 v) = some .Int32) ∧
    (∀ v, ScalarValue.get_datatype (.Int64 v) = some .Int64) ∧
    (∀ v, ScalarValue.get_datatype (.Float32 v) = some .Float32) ∧
    (∀ v, ScalarValue.get_datatype (.Float64 v) = some .Float64) :=
  ⟨fun v => by cases v <;> simp [ScalarValue.get_datatype],
    fun _ => rfl, fun _ => rfl, fun _ => rfl, fun _ => rfl, fun _ => rfl, fun _ => rfl,
    fun _ => rfl, fun _ => rfl, fun _ => rfl, fun _ => rfl, fun _ => rfl, fun _ => rfl⟩

/-- C8: the rendering of a Join node contains the complete rendering of the
left subtree, the complete rendering of the right subtree, and the literal
text of both join-key names; the rendering of a DataFrameScan node does not
depend on the table data and uses only the first 4 column names of its
schema. -/
theorem join_render_contains_children_and_keys (ed : Expr → String)
    (l r : LogicalPlan) (sch : Schema) (how : JoinType) (lon ron : String)
    (df df2 : DataFrame) (s : Schema) :
    occursIn (fmtDebug ed l) (fmtDebug ed (.Join l r sch how lon ron)) ∧
    occursIn (fmtDebug ed r) (fmtDebug ed (.Join l r sch how lon ron)) ∧
    occursIn lon (fmtDebug ed (.Join l r sch how lon ron)) ∧
    occursIn ron (fmtDebug ed (.Join l r sch how lon ron)) ∧
    fmtDebug ed (.DataFrameScan df s) = fmtDebug ed (.DataFrameScan df2 s) ∧
    fmtDebug ed (.DataFrameScan df s) = fmtDebug ed (.DataFrameScan df (s.take 4)) := by
  simp only [fmtDebug]
  refine ⟨?_, ?_, ?_, ?_, trivial, ?_⟩
  · exact occursIn_append_right _ (occursIn_append_left _ (occursIn_refl _))
  · exact occursIn_append_right _ (occursIn_append_right _ (occursIn_append_right _
      (occursIn_append_left _ (occursIn_refl _))))
  · exact occursIn_append_right _ (occursIn_append_right _ (occursIn_append_right _
      (occursIn_append_right _ (occursIn_append_right _
        (occursIn_append_left _ (occursIn_refl _))))))
  · exact occursIn_append_right _ (occursIn_append_right _ (occursIn_append_right _
      (occursIn_append_right _ (occursIn_append_right _ (occursIn_append_right _
        (occursIn_append_right _ (occursIn_append_left _ (occursIn_refl _))))))))
  · simp [List.map_take, List.take_take]

/-- C9: `sort` and `filter` are total and perform no validation: for every
plan, every column name (present in the schema or not), every reverse flag
and every predicate, they return exactly the wrapping Sort/Selection node,
whose schema equals the input plan's schema. -/
theorem sort_filter_total_and_schema_preserving (p : LogicalPlan) (col : String)
    (rev : Bool) (pred : Expr) :
    LogicalPlanBuilder.filter p pred = LogicalPlan.Selection p pred ∧
    LogicalPlanBuilder.sort p col rev = LogicalPlan.Sort p col rev ∧
    (LogicalPlanBuilder.filter p pred).schema = p.schema ∧
    (LogicalPlanBuilder.sort p col rev).schema = p.schema :=
  ⟨rfl, rfl, rfl, rfl⟩

/-- C10: the rendering of a DataFrameScan node is determined by the first 4
fields of its schema alone (names past the fourth are never emitted), and
each of the first `min 4 n` column names occurs literally in the rendered
string — in particular for schemas with 4 or fewer fields all names
appear. -/
theorem dataFrameScan_render_first_four (ed : Expr → String) (df : DataFrame) (s : Schema) :
    fmtDebug ed (.DataFrameScan df s) = fmtDebug ed (.DataFrameScan df (s.take 4)) ∧
    ∀ f ∈ s.take 4, occursIn f.name (fmtDebug ed (.DataFrameScan df s)) := by
  constructor
  · simp [fmtDebug, List.map_take, List.take_take]
  · intro f hf
    simp only [fmtDebug]
    have h1 : f.name ∈ (s.map Field.name).take 4 := by
      rw [← List.map_take]
      exact List.mem_map_of_mem Field.name hf
    exact occursIn_append_right _ (occursIn_trans (occursIn_debugQuote f.name)
      (occursIn_debugList (List.mem_map_of_mem debugQuote h1)))

/-- Witness for C10: `days` is among the first 4 fields of the scenario
schema and occurs literally in the rendered scan. -/
theorem dataFrameScan_render_first_four_witness :
    (fieldDays ∈ leftSchema.take 4) ∧
    occursIn fieldDays.name (fmtDebug (fun _ => "")
      (.DataFrameScan { schema := leftSchema, rows := [] } leftSchema)) :=
  ⟨by decide,
    (dataFrameScan_render_first_four (fun _ => "")
      { schema := leftSchema, rows := [] } leftSchema).2 fieldDays (by decide)⟩

end Polars
